import Mathlib

/-!
Verification development for the haptools command-line layer
(`src/haptools/__main__.py`) and for the admixture-simulation core it
dispatches to. Python strings are embedded as lists of characters, the
command bodies as pure functions that return the calls they would make to
the imported library functions, and the simulation core (whose Python
source is not part of this snapshot) is modelled from the specification.
-/

namespace Haptools

/-- Python strings are modelled as lists of characters. -/
abbrev Str := List Char

/-- Model of Python `str.split(sep)` for a one-character separator `c`:
splitting the empty string yields `[[]]`, and every occurrence of `c`
starts a new chunk. -/
def splitOnChar (c : Char) : Str → List Str
  | [] => [[]]
  | x :: xs =>
    let r := splitOnChar c xs
    if x = c then [] :: r
    else (x :: r.headD []) :: r.tail

/-- Joining a list of chunks with a one-character separator; the inverse
direction of `splitOnChar` (Python `sep.join(chunks)`). -/
def joinWith (c : Char) : List Str → Str
  | [] => []
  | [l] => l
  | l :: ls => l ++ c :: joinWith c ls

theorem splitOnChar_ne_nil (c : Char) (s : Str) : splitOnChar c s ≠ [] := by
  cases s with
  | nil => simp [splitOnChar]
  | cons x xs =>
    simp only [splitOnChar]
    split <;> simp

theorem splitOnChar_append_of_not_mem (c : Char) (l s : Str) (h : c ∉ l) :
    splitOnChar c (l ++ s) =
      (l ++ (splitOnChar c s).headD []) :: (splitOnChar c s).tail := by
  induction l with
  | nil =>
    obtain ⟨a, t, ht⟩ := List.exists_cons_of_ne_nil (splitOnChar_ne_nil c s)
    simp [ht]
  | cons x xs ih =>
    have hx : x ≠ c := by
      intro hc; exact h (by simp [hc])
    have hxs : c ∉ xs := fun hm => h (List.mem_cons_of_mem _ hm)
    simp only [List.cons_append, splitOnChar, if_neg hx, List.append_eq]
    rw [ih hxs]
    simp

theorem splitOnChar_of_not_mem (c : Char) (l : Str) (h : c ∉ l) :
    splitOnChar c l = [l] := by
  have := splitOnChar_append_of_not_mem c l [] h
  simpa [splitOnChar] using this

theorem splitOnChar_joinWith (c : Char) (ls : List Str) (h : ls ≠ [])
    (hc : ∀ l ∈ ls, c ∉ l) :
    splitOnChar c (joinWith c ls) = ls := by
  induction ls with
  | nil => exact absurd rfl h
  | cons l t ih =>
    cases t with
    | nil =>
      have : c ∉ l := hc l (by simp)
      simp [joinWith, splitOnChar_of_not_mem c l this]
    | cons l2 t2 =>
      have hl : c ∉ l := hc l (by simp)
      have hrest : ∀ x ∈ l2 :: t2, c ∉ x := fun x hx =>
        hc x (List.mem_cons_of_mem _ hx)
      have hne : l2 :: t2 ≠ [] := by simp
      calc splitOnChar c (joinWith c (l :: l2 :: t2))
          = splitOnChar c (l ++ c :: joinWith c (l2 :: t2)) := rfl
        _ = (l ++ (splitOnChar c (c :: joinWith c (l2 :: t2))).headD []) ::
              (splitOnChar c (c :: joinWith c (l2 :: t2))).tail :=
            splitOnChar_append_of_not_mem c l _ hl
        _ = l :: splitOnChar c (joinWith c (l2 :: t2)) := by
            simp [splitOnChar]
        _ = l :: l2 :: t2 := by rw [ih hne hrest]

theorem joinWith_ne_nil_of_head_ne_nil (c : Char) (l : Str) (t : List Str)
    (h : l ≠ []) : joinWith c (l :: t) ≠ [] := by
  cases t with
  | nil => simpa [joinWith] using h
  | cons l2 t2 =>
    cases l with
    | nil => exact absurd rfl h
    | cons a as => simp [joinWith]

theorem not_mem_joinWith (c c2 : Char) (ls : List Str)
    (hne : c2 ≠ c) (h : ∀ l ∈ ls, c2 ∉ l) : c2 ∉ joinWith c ls := by
  induction ls with
  | nil => simp [joinWith]
  | cons l t ih =>
    cases t with
    | nil => simpa [joinWith] using h l (by simp)
    | cons l2 t2 =>
      have hl : c2 ∉ l := h l (by simp)
      have ht : c2 ∉ joinWith c (l2 :: t2) :=
        ih (fun x hx => h x (List.mem_cons_of_mem _ hx))
      simp only [joinWith, List.mem_append, List.mem_cons]
      rintro (hm | hm | hm)
      · exact hl hm
      · exact hne hm
      · exact ht hm

theorem joinWith_getLast? (c : Char) (ls : List Str) (ll : Str)
    (hlast : ls.getLast? = some ll) (hne : ll ≠ []) :
    (joinWith c ls).getLast? = ll.getLast? := by
  induction ls with
  | nil => simp at hlast
  | cons l t ih =>
    cases t with
    | nil =>
      have hl : l = ll := by simpa using hlast
      subst hl
      rfl
    | cons l2 t2 =>
      have hlast2 : (l2 :: t2).getLast? = some ll := by
        simpa [List.getLast?_cons_cons] using hlast
      have hll : ll.getLast? ≠ none := by
        simp [List.getLast?_eq_none_iff, hne]
      have hjw : joinWith c (l2 :: t2) ≠ [] := by
        intro h0
        apply hll
        rw [← ih hlast2, h0]
        simp
      obtain ⟨a, t3, ht3⟩ := List.exists_cons_of_ne_nil hjw
      calc (joinWith c (l :: l2 :: t2)).getLast?
          = (l ++ c :: joinWith c (l2 :: t2)).getLast? := rfl
        _ = (c :: joinWith c (l2 :: t2)).getLast? :=
            List.getLast?_append_cons l c _
        _ = (joinWith c (l2 :: t2)).getLast? := by
            rw [ht3, List.getLast?_cons_cons]
        _ = ll.getLast? := ih hlast2

/-- Decimal digits of `n`, least significant first, computed with
structural fuel so that it reduces inside the kernel. -/
def natDigitsAux : Nat → Nat → List Nat
  | 0, _ => []
  | _ + 1, 0 => []
  | fuel + 1, n => n % 10 :: natDigitsAux fuel (n / 10)

/-- Decimal digits of `n`, least significant first (empty for `0`). -/
def natDigits (n : Nat) : List Nat := natDigitsAux n n

/-- Value of a little-endian decimal digit list. -/
def unDigits : List Nat → Nat
  | [] => 0
  | d :: ds => d + 10 * unDigits ds

/-- Character for a single decimal digit. -/
def digitCh : Nat → Char
  | 0 => '0'
  | 1 => '1'
  | 2 => '2'
  | 3 => '3'
  | 4 => '4'
  | 5 => '5'
  | 6 => '6'
  | 7 => '7'
  | 8 => '8'
  | _ => '9'

/-- Whether a character is a decimal digit. -/
def isDigitCh (c : Char) : Bool := 48 ≤ c.toNat && c.toNat ≤ 57

/-- Numeric value of a decimal digit character. -/
def chVal (c : Char) : Nat := c.toNat - 48

/-- Decimal rendering of a natural number as characters. -/
def natToChars (n : Nat) : Str :=
  if n = 0 then ['0'] else (natDigits n).reverse.map digitCh

/-- Parse a nonempty all-digit character list as a decimal natural
number; any other input is rejected. -/
def charsToNat? (s : Str) : Option Nat :=
  if s ≠ [] ∧ s.all isDigitCh then
    some (unDigits ((s.map chVal).reverse))
  else none

theorem natDigitsAux_eq (fuel n : Nat) (h : n ≤ fuel) :
    unDigits (natDigitsAux fuel n) = n := by
  induction fuel generalizing n with
  | zero =>
    have : n = 0 := Nat.le_zero.mp h
    subst this
    rfl
  | succ f ih =>
    cases n with
    | zero => rfl
    | succ m =>
      have hlt : (m + 1) / 10 ≤ f := by omega
      simp only [natDigitsAux, unDigits, ih _ hlt]
      omega

theorem unDigits_natDigits (n : Nat) : unDigits (natDigits n) = n :=
  natDigitsAux_eq n n (Nat.le_refl n)

theorem natDigitsAux_lt (fuel n d : Nat) (h : d ∈ natDigitsAux fuel n) :
    d < 10 := by
  induction fuel generalizing n with
  | zero => simp [natDigitsAux] at h
  | succ f ih =>
    cases n with
    | zero => simp [natDigitsAux] at h
    | succ m =>
      simp only [natDigitsAux, List.mem_cons] at h
      rcases h with h | h
      · subst h; omega
      · exact ih _ h

theorem natDigits_lt (n d : Nat) (h : d ∈ natDigits n) : d < 10 :=
  natDigitsAux_lt n n d h

theorem chVal_digitCh (d : Nat) (h : d < 10) : chVal (digitCh d) = d := by
  interval_cases d <;> decide

theorem isDigitCh_digitCh (d : Nat) (h : d < 10) : isDigitCh (digitCh d) = true := by
  interval_cases d <;> decide

theorem mem_natToChars (n : Nat) (c : Char) (h : c ∈ natToChars n) :
    ∃ d, d < 10 ∧ c = digitCh d := by
  unfold natToChars at h
  split at h
  · exact ⟨0, by omega, by simpa using h⟩
  · simp only [List.mem_map, List.mem_reverse] at h
    obtain ⟨d, hd, rfl⟩ := h
    exact ⟨d, natDigits_lt n d hd, rfl⟩

theorem natToChars_ne_nil (n : Nat) : natToChars n ≠ [] := by
  unfold natToChars
  split
  · simp
  · intro h
    have h0 : natDigits n ≠ [] := by
      rename_i hn
      cases n with
      | zero => exact absurd rfl hn
      | succ m => simp [natDigits, natDigitsAux]
    simp only [List.map_eq_nil_iff, List.reverse_eq_nil_iff] at h
    exact h0 h

theorem not_digit_not_mem_natToChars (n : Nat) (c : Char)
    (h : isDigitCh c = false) : c ∉ natToChars n := by
  intro hm
  obtain ⟨d, hd, rfl⟩ := mem_natToChars n c hm
  rw [isDigitCh_digitCh d hd] at h
  simp at h

theorem charsToNat?_natToChars (n : Nat) : charsToNat? (natToChars n) = some n := by
  unfold charsToNat?
  have hall : (natToChars n).all isDigitCh = true := by
    rw [List.all_eq_true]
    intro c hc
    obtain ⟨d, hd, rfl⟩ := mem_natToChars n c hc
    exact isDigitCh_digitCh d hd
  rw [if_pos ⟨natToChars_ne_nil n, hall⟩]
  congr 1
  unfold natToChars
  split
  · rename_i hn
    subst hn
    rfl
  · rw [List.map_map, List.map_reverse, List.reverse_reverse]
    have hmap : (natDigits n).map (chVal ∘ digitCh) = natDigits n := by
      apply List.map_congr_left ?_ |>.trans (List.map_id _)
      intro d hd
      exact chVal_digitCh d (natDigits_lt n d hd)
    rw [show ((natDigits n).map (chVal ∘ digitCh)) = natDigits n from hmap]
    exact unDigits_natDigits n

/-- Model of Python `str.splitlines` for newline-terminated text: the
empty string has no lines, and one trailing newline does not produce a
trailing empty line. -/
def splitlines (s : Str) : List Str :=
  if s = [] then []
  else splitOnChar '\n' (if s.getLast? = some '\n' then s.dropLast else s)

theorem splitlines_joinWith_newline (lines : List Str) (h : lines ≠ [])
    (hc : ∀ l ∈ lines, '\n' ∉ l) :
    splitlines (joinWith '\n' lines ++ ['\n']) = lines := by
  unfold splitlines
  rw [if_neg (by simp), if_pos (List.getLast?_concat _), List.dropLast_concat]
  exact splitOnChar_joinWith '\n' lines h hc

theorem splitlines_joinWith (lines : List Str) (h : lines ≠ [])
    (hc : ∀ l ∈ lines, '\n' ∉ l) (hl : lines.getLast? ≠ some []) :
    splitlines (joinWith '\n' lines) = lines := by
  obtain ⟨ll, hll⟩ : ∃ ll, lines.getLast? = some ll := by
    cases he : lines.getLast? with
    | none => exact absurd (List.getLast?_eq_none_iff.mp he) h
    | some a => exact ⟨a, rfl⟩
  have hllne : ll ≠ [] := by
    intro h0
    subst h0
    exact hl hll
  have hlast : (joinWith '\n' lines).getLast? = ll.getLast? :=
    joinWith_getLast? '\n' lines ll hll hllne
  have hjne : joinWith '\n' lines ≠ [] := by
    intro h0
    rw [h0] at hlast
    simp only [List.getLast?_nil] at hlast
    exact hllne (List.getLast?_eq_none_iff.mp hlast.symm)
  have hnotnl : (joinWith '\n' lines).getLast? ≠ some '\n' := by
    rw [hlast]
    intro h0
    have hmem : '\n' ∈ ll := List.mem_of_getLast?_eq_some h0
    exact hc ll (List.mem_of_getLast?_eq_some hll) hmem
  unfold splitlines
  rw [if_neg hjne, if_neg hnotnl]
  exact splitOnChar_joinWith '\n' lines h hc

/-- Decidable equality of `Except` results, used to evaluate the command
models on concrete inputs. -/
instance {ε α : Type} [DecidableEq ε] [DecidableEq α] : DecidableEq (Except ε α) :=
  fun a b =>
  match a, b with
  | .error e1, .error e2 =>
    if h : e1 = e2 then .isTrue (by rw [h]) else .isFalse (by simp [h])
  | .error _, .ok _ => .isFalse (by simp)
  | .ok _, .error _ => .isFalse (by simp)
  | .ok v1, .ok v2 =>
    if h : v1 = v2 then .isTrue (by rw [h]) else .isFalse (by simp [h])

/-- One call made by the `simgenotype` command body to a function imported
from `haptools.sim_genotype`, together with the arguments passed
(src/haptools/__main__.py lines 90-101). `S` is the type of the `samples`
value and `B` the type of the `breakpoints` value exchanged between the
stages. -/
inductive SgCall (S B : Type) where
  | validate_params (model mapdir : Str) (chroms : List Str) (popsize : Nat)
      (invcf sample_info : Str) (only_breakpoint : Bool)
  | simulate_gt (model mapdir : Str) (chroms : List Str) (popsize : Nat)
      (seed : Option Int)
  | write_breakpoints (samples : S) (bps : B) (out : Str)
  | output_vcf (bps : B) (model invcf sample_info out : Str)
  deriving DecidableEq

/-- Behaviour of the four functions the `simgenotype` command imports from
`haptools.sim_genotype`; each may raise (modelled as `Except.error`). -/
structure SimGenotypeEnv (S B : Type) where
  validate_params : Str → Str → List Str → Nat → Str → Str → Bool → Except Str Unit
  simulate_gt : Str → Str → List Str → Nat → Option Int → Except Str (S × B)
  write_breakpoints : S → B → Str → Except Str B
  output_vcf : B → Str → Str → Str → Str → Except Str Unit

/-- Model of the `simgenotype` command body (src/haptools/__main__.py
lines 75-107): split `chroms` on commas, call `validate_params`, then
`simulate_gt`, then `write_breakpoints` (rebinding `breakpoints` to its
return value), and finally `output_vcf` unless `only_breakpoint` is set.
The result is the ordered list of library calls made, paired with the
run's outcome; an exception aborts the remaining calls. The `verbose`
flag only prints timing and changes no call. -/
def simgenotypeCmd {S B : Type} (env : SimGenotypeEnv S B)
    (invcf sample_info model mapdir out : Str) (popsize : Nat)
    (seed : Option Int) (chroms : Str) (only_breakpoint verbose : Bool) :
    List (SgCall S B) × Except Str Unit :=
  let chromsList := splitOnChar ',' chroms
  let c0 : SgCall S B :=
    .validate_params model mapdir chromsList popsize invcf sample_info only_breakpoint
  match env.validate_params model mapdir chromsList popsize invcf sample_info
      only_breakpoint with
  | .error e => ([c0], .error e)
  | .ok _ =>
    let c1 : SgCall S B := .simulate_gt model mapdir chromsList popsize seed
    match env.simulate_gt model mapdir chromsList popsize seed with
    | .error e => ([c0, c1], .error e)
    | .ok (samples, bps) =>
      let c2 : SgCall S B := .write_breakpoints samples bps out
      match env.write_breakpoints samples bps out with
      | .error e => ([c0, c1, c2], .error e)
      | .ok bps2 =>
        if only_breakpoint then ([c0, c1, c2], .ok ())
        else
          let c3 : SgCall S B := .output_vcf bps2 model invcf sample_info out
          match env.output_vcf bps2 model invcf sample_info out with
          | .error e => ([c0, c1, c2, c3], .error e)
          | .ok _ => ([c0, c1, c2, c3], .ok ())

/-- Whether a call is an `output_vcf` call. -/
def SgCall.isOutputVcf {S B : Type} : SgCall S B → Bool
  | .output_vcf .. => true
  | _ => false

/-- Whether a call is a `write_breakpoints` call. -/
def SgCall.isWriteBp {S B : Type} : SgCall S B → Bool
  | .write_breakpoints .. => true
  | _ => false

/-- Whether a call is a `simulate_gt` call. -/
def SgCall.isSimulateGt {S B : Type} : SgCall S B → Bool
  | .simulate_gt .. => true
  | _ => false

/-- Shared sample-subset handling of the `simphenotype` and `transform`
command bodies (src/haptools/__main__.py lines 261-273 and 430-442):
giving both `--sample` and `--samples-file` raises a usage error;
otherwise a samples file is read and split into lines, a nonempty
`--sample` tuple is converted to a list, and with neither given `None`
is passed on. -/
def handleSamples (samples : List Str) (samples_file : Option Str) :
    Except String (Option (List Str)) :=
  if samples ≠ [] ∧ samples_file.isSome then
    .error "You may only use one of --sample or --samples-file but not both."
  else
    match samples_file with
    | some content => .ok (some (splitlines content))
    | none => if samples ≠ [] then .ok (some samples) else .ok none

/-- Arguments of the one call the `simphenotype` command body makes to
`simulate_pt` (src/haptools/__main__.py lines 276-279); the logger
argument is omitted as pure configuration. -/
structure SimulatePtCall where
  genotypes : Str
  haplotypes : Str
  replications : Nat
  heritability : Option Float
  prevalence : Option Float
  region : Option Str
  samples : Option (List Str)
  chunk_size : Option Nat
  output : Str

/-- Model of the `simphenotype` command body (src/haptools/__main__.py
lines 185-279): handle the samples options, then call `simulate_pt` with
all arguments, including the function's `chunk_size` parameter. -/
def simphenotypeBody (genotypes haplotypes : Str) (replications : Nat)
    (heritability prevalence : Option Float) (region : Option Str)
    (samples : List Str) (samples_file : Option Str) (chunk_size : Option Nat)
    (output : Str) : Except String SimulatePtCall :=
  match handleSamples samples samples_file with
  | .error e => .error e
  | .ok s =>
    .ok { genotypes := genotypes, haplotypes := haplotypes,
          replications := replications, heritability := heritability,
          prevalence := prevalence, region := region, samples := s,
          chunk_size := chunk_size, output := output }

/-- Invocation of `simphenotype` through the click command line: click
passes exactly the declared options, so the Python function's
`chunk_size` parameter keeps its declared default `None` (no
`--chunk-size` option exists on this command). -/
def simphenotypeCli (genotypes haplotypes : Str) (replications : Nat)
    (heritability prevalence : Option Float) (region : Option Str)
    (samples : List Str) (samples_file : Option Str) (output : Str) :
    Except String SimulatePtCall :=
  simphenotypeBody genotypes haplotypes replications heritability prevalence
    region samples samples_file none output

/-- Long names of the click options declared on the `simphenotype`
command (src/haptools/__main__.py lines 110-184). -/
def simphenotypeOptions : List String :=
  ["replications", "heritability", "prevalence", "region", "sample",
   "samples-file", "output", "verbosity"]

/-- Long names of the click options declared on the `transform`
command (src/haptools/__main__.py lines 281-358). -/
def transformOptions : List String :=
  ["region", "sample", "samples-file", "haplotype-ids", "chunk-size",
   "discard-missing", "output", "verbosity"]

/-- Arguments of the one call the `transform` command body makes to
`transform_haps` (src/haptools/__main__.py lines 449-452); the logger
argument is omitted as pure configuration, and Python's
`set(haplotype_ids)` is modelled as the underlying list since only its
emptiness matters here. -/
structure TransformHapsCall where
  genotypes : Str
  haplotypes : Str
  region : Option Str
  samples : Option (List Str)
  haplotype_ids : Option (List Str)
  chunk_size : Option Nat
  discard_missing : Bool
  output : Str
  deriving DecidableEq

/-- Model of the `transform` command body (src/haptools/__main__.py
lines 359-452): handle the samples options, convert `haplotype_ids`,
then call `transform_haps`. -/
def transformBody (genotypes haplotypes : Str) (region : Option Str)
    (samples : List Str) (samples_file : Option Str)
    (haplotype_ids : List Str) (chunk_size : Option Nat)
    (discard_missing : Bool) (output : Str) :
    Except String TransformHapsCall :=
  match handleSamples samples samples_file with
  | .error e => .error e
  | .ok s =>
    let hids := if haplotype_ids ≠ [] then some haplotype_ids else none
    .ok { genotypes := genotypes, haplotypes := haplotypes, region := region,
          samples := s, haplotype_ids := hids, chunk_size := chunk_size,
          discard_missing := discard_missing, output := output }

/-- Insertion into a Python dict modelled as an association list in
insertion order: an existing key is overwritten in place, a new key is
appended. -/
def pyDictInsert (d : List (Str × Str)) (k v : Str) : List (Str × Str) :=
  if d.any (fun p => p.1 == k) then
    d.map (fun p => if p.1 == k then (k, v) else p)
  else d ++ [(k, v)]

/-- Python `dict(pairs)`: left-to-right insertion. -/
def pyDict (ps : List (Str × Str)) : List (Str × Str) :=
  ps.foldl (fun d p => pyDictInsert d p.1 p.2) []

/-- Arguments of the call the `karyogram` command body makes to
`PlotKaryogram` (src/haptools/__main__.py lines 48-52). -/
structure KaryogramCall where
  bp : Str
  sample : Str
  out : Str
  centromeres_file : Option Str
  title : Option Str
  colors : Option (List (Str × Str))
  deriving DecidableEq

/-- Model of the `karyogram` command body (src/haptools/__main__.py
lines 37-52): when `--colors` is given, split it on commas and each item
on a colon, and build a dict from the resulting pairs; an item that does
not split into exactly two parts makes Python's `dict(...)` raise a
`ValueError`. Without `--colors`, `None` is passed. -/
def karyogramCmd (bp sample out : Str) (title centromeres colors : Option Str) :
    Except String KaryogramCall :=
  match colors with
  | none =>
    .ok { bp := bp, sample := sample, out := out, centromeres_file := centromeres,
          title := title, colors := none }
  | some s =>
    let items := (splitOnChar ',' s).map (splitOnChar ':')
    if items.all (fun p => p.length == 2) then
      .ok { bp := bp, sample := sample, out := out,
            centromeres_file := centromeres, title := title,
            colors := some (pyDict (items.map
              (fun p => (p.headD [], p.tail.headD [])))) }
    else .error "ValueError"

/-- Modelled from the spec: a population label (section 3, data model). -/
abbrev Label := Str

/-- Modelled from the spec: an ordered breakpoint sequence for one
haplotype of one chromosome — each entry is (end physical position,
population label), the chromosome being implicit in the enclosing
structure (section 3, `AncestryBreakpoint`). -/
abbrev Track := List (Nat × Label)

/-- Modelled from the spec: a per-chromosome genetic map, an ordered
sequence of (physical position, genetic position) pairs (section 3,
`GeneticMap`). -/
abbrev GMap := List (Nat × Nat)

/-- Modelled from the spec: the chromosome's last (maximum) mapped
physical position. -/
def chromEnd (m : GMap) : Nat := ((m.getLast?).map (fun e => e.1)).getD 0

/-- Modelled from the spec: the single seeded pseudo-random stream that
drives the whole simulator (section 4.4); a linear congruential step
returning the new state and a drawn value. -/
def rngNext (s : Nat) : Nat × Nat :=
  let s2 := (s * 1103515245 + 12345) % 2147483648
  (s2, s2 / 65536)

/-- Draw a value below `n` (and the new stream state). -/
def randBelow (s n : Nat) : Nat × Nat :=
  let p := rngNext s
  (p.1, p.2 % n)

/-- Modelled from the spec: ancestry-track compaction — adjacent
breakpoints carrying the same population label are merged into a single
breakpoint, keeping the later end position (section 4.4 step 3). -/
def compact : Track → Track
  | [] => []
  | [b] => [b]
  | a :: b :: t => if a.2 = b.2 then compact (b :: t) else a :: compact (b :: t)

/-- Modelled from the spec: build the compacted breakpoint sequence of a
haplotype whose ancestry label at each physical position `1..E` is
`f pos`; every track the simulator emits is produced this way, so the
coverage and compaction invariants are consequences of this construction. -/
def mkTrack (f : Nat → Label) (E : Nat) : Track :=
  compact ((List.range E).map (fun i => (i + 1, f (i + 1))))

/-- Label of the breakpoint covering position `pos` in a track. -/
def labelAt (t : Track) (pos : Nat) : Label :=
  match t with
  | [] => []
  | (e, l) :: rest => if pos ≤ e then l else labelAt rest pos

/-- Modelled from the spec: weighted choice of a population label from a
generation's (label, proportion) table (section 4.4 step 1); the drawn
value `r` is matched against cumulative weights. -/
def pickWeighted : List (Label × Nat) → Nat → Label
  | [], _ => []
  | (l, w) :: rest, r => if r < w ∨ rest = [] then l else pickWeighted rest (r - w)

/-- Draw a population label from the seeded stream according to a
generation's proportions. -/
def drawLabel (s : Nat) (props : List (Label × Nat)) : Nat × Label :=
  let total := (props.map (fun p => p.2)).sum
  let p := randBelow s total
  (p.1, pickWeighted props p.2)

/-- Modelled from the spec: local scale used for the inter-crossover gap
draw, derived from the genetic map around `pos` (section 4.4 step 2);
the real implementation inverts the map's genetic-distance function, the
model keeps only its positivity and map-dependence. -/
def mapWindow (m : GMap) (pos : Nat) : Nat :=
  match m.find? (fun e => decide (pos < e.1)) with
  | some e => e.1 - pos
  | none => 1

/-- Modelled from the spec: the recombination walk's crossover positions
— starting at the chromosome's first position, repeatedly draw a positive
gap to the next crossover and stop at the chromosome end `E`
(section 4.4 step 2). The fuel argument makes termination structural;
gaps are at least 1, so fuel `E` suffices. -/
def drawCrossovers : Nat → Nat → Nat → GMap → Nat → Nat × List Nat
  | 0, s, _, _, _ => (s, [])
  | fuel + 1, s, pos, m, E =>
    let p := randBelow s (mapWindow m pos)
    let pos2 := pos + p.2 + 1
    if E ≤ pos2 then (p.1, [])
    else
      let q := drawCrossovers fuel p.1 pos2 m E
      (q.1, pos2 :: q.2)

/-- Modelled from the spec: combine two parental haplotypes into one
offspring haplotype by the recombination walk — at each crossover the
contributing parental haplotype flips, and the offspring copies the
active parent's label at every position (section 4.4 step 2), followed
by compaction. -/
def recombine (s : Nat) (h0 h1 : Track) (m : GMap) (E : Nat) : Nat × Track :=
  let q := drawCrossovers E s 0 m E
  let f := randBelow q.1 2
  (f.1, mkTrack (fun pos =>
      labelAt (if (f.2 + q.2.countP (fun x => decide (x < pos))) % 2 = 0
               then h0 else h1) pos) E)

/-- Modelled from the spec: one simulated individual — two haplotype
breakpoint sequences for the chromosome under simulation. -/
structure Indiv where
  hap0 : Track
  hap1 : Track
  deriving DecidableEq

/-- Modelled from the spec: a founder individual at generation 0 — each
of the two haplotypes gets a single population label drawn according to
the founder generation's proportions (section 4.4 step 1). -/
def simFounder (s : Nat) (props : List (Label × Nat)) (E : Nat) : Nat × Indiv :=
  let p0 := drawLabel s props
  let p1 := drawLabel p0.1 props
  (p1.1, ⟨mkTrack (fun _ => p0.2) E, mkTrack (fun _ => p1.2) E⟩)

/-- A whole founder generation of `n` individuals, drawn in increasing
index order from the shared stream. -/
def simFounders : Nat → Nat → List (Label × Nat) → Nat → Nat × List Indiv
  | 0, s, _, _ => (s, [])
  | n + 1, s, props, E =>
    let p := simFounder s props E
    let q := simFounders n p.1 props E
    (q.1, p.2 :: q.2)

/-- Modelled from the spec: one offspring haplotype — a freshly drawn
transmitting parent is picked from the previous generation and its two
haplotypes are recombined (section 4.4 step 2). -/
def simOffspringHap (s : Nat) (prev : List Indiv) (m : GMap) (E : Nat) :
    Nat × Track :=
  let p := randBelow s prev.length
  let par := prev.getD p.2 ⟨[], []⟩
  recombine p.1 par.hap0 par.hap1 m E

/-- One offspring individual: two independently recombined haplotypes. -/
def simOffspring (s : Nat) (prev : List Indiv) (m : GMap) (E : Nat) :
    Nat × Indiv :=
  let p := simOffspringHap s prev m E
  let q := simOffspringHap p.1 prev m E
  (q.1, ⟨p.2, q.2⟩)

/-- One full generation of `n` offspring individuals computed from the
previous generation's array (arena-per-generation, section 9). -/
def simGen : Nat → Nat → List Indiv → GMap → Nat → Nat × List Indiv
  | 0, s, _, _, _ => (s, [])
  | n + 1, s, prev, m, E =>
    let p := simOffspring s prev m E
    let q := simGen n p.1 prev m E
    (q.1, p.2 :: q.2)

/-- Modelled from the spec: the admixture model — ordered generations of
(population label, proportion) tables plus the number of samples to
output (section 3, `AdmixtureModel`); proportions are modelled as
natural weights. Per-generation founder injection beyond generation 0 is
not modelled; later generations recombine the previous one. -/
structure AdmixModel where
  num_samples : Nat
  gens : List (List (Label × Nat))
  deriving DecidableEq

/-- Modelled from the spec: simulate one chromosome — a founder
generation, then one recombination generation per remaining model
generation, returning the final generation's individuals (section 4.4). -/
def simChrom (s : Nat) (model : AdmixModel) (m : GMap) (popsize : Nat) :
    Nat × List Indiv :=
  let E := chromEnd m
  let p := simFounders popsize s (model.gens.headD []) E
  (model.gens.drop 1).foldl
    (fun acc _ => simGen popsize acc.1 acc.2 m E) p

/-- Look up a chromosome's genetic map by name. -/
def findMap (maps : List (Str × GMap)) (cn : Str) : GMap :=
  ((maps.find? (fun e => e.1 == cn)).map (fun e => e.2)).getD []

/-- Modelled from the spec: a `SimulatedSample`'s breakpoint data — for
every chromosome, the two haplotypes' ordered breakpoint sequences
(section 3, `SimulatedSample`); the sample identifier is carried
alongside. -/
structure SampleBP where
  chroms : List (Str × Track × Track)
  deriving DecidableEq

/-- Simulate every requested chromosome in the given fixed order,
threading the single seeded stream through them. -/
def simChroms (s : Nat) (model : AdmixModel) (maps : List (Str × GMap)) :
    List Str → Nat → List (Str × List Indiv)
  | [], _ => []
  | cn :: rest, popsize =>
    let p := simChrom s model (findMap maps cn) popsize
    (cn, p.2) :: simChroms p.1 model maps rest popsize

/-- Modelled from the spec: the Pedigree/Recombination Simulator's entry
point — produce one `SimulatedSample` per requested output sample, for
every requested chromosome, all randomness derived from the one seed
(section 4.4). Sample `i` is named `Sample_(i+1)`. -/
def simulate_gt_model (seed : Nat) (model : AdmixModel)
    (maps : List (Str × GMap)) (chroms : List Str) (popsize : Nat) :
    List (Str × SampleBP) :=
  let perChrom := simChroms seed model maps chroms popsize
  (List.range model.num_samples).map (fun i =>
    (("Sample_").toList ++ natToChars (i + 1),
     ⟨perChrom.map (fun e =>
        (e.1, (e.2.getD i ⟨[], []⟩).hap0, (e.2.getD i ⟨[], []⟩).hap1))⟩))

/-- Modelled from the spec: one line of the breakpoint artifact — it
encodes chromosome, end position, population label and haplotype index,
tab-separated (section 6, breakpoint artifact). -/
def bpLine (cn : Str) (e : Nat) (lab : Label) (hap : Char) : Str :=
  joinWith '\t' [cn, natToChars e, lab, [hap]]

/-- Lines for one chromosome of one sample: haplotype 0's breakpoints,
then haplotype 1's. -/
def writeChromLines (c : Str × Track × Track) : List Str :=
  c.2.1.map (fun b => bpLine c.1 b.1 b.2 '0') ++
    c.2.2.map (fun b => bpLine c.1 b.1 b.2 '1')

/-- Lines for one sample: a header line carrying the sample identifier,
then that sample's breakpoint lines (one section per simulated sample,
section 6). -/
def writeSampleLines (p : Str × SampleBP) : List Str :=
  p.1 :: p.2.chroms.flatMap writeChromLines

/-- Modelled from the spec: the Breakpoint Writer — serialize every
sample's ordered breakpoint sequences into one newline-separated text
artifact (section 4.5). -/
def write_breakpoints_model (samples : List (Str × SampleBP)) : Str :=
  joinWith '\n' (samples.flatMap writeSampleLines)

/-- Parse one artifact line as a breakpoint record
(chromosome, end position, label, haplotype index); header lines have no
tab and therefore do not parse. -/
def parseLine (l : Str) : Option (Str × Nat × Str × Nat) :=
  match splitOnChar '\t' l with
  | [cn, e, lab, hap] =>
    match charsToNat? e, hap with
    | some n, ['0'] => some (cn, n, lab, 0)
    | some n, ['1'] => some (cn, n, lab, 1)
    | _, _ => none
  | _ => none

/-- Attach one parsed breakpoint record to the chromosome list being
rebuilt: append to the current (last) chromosome when the name matches,
otherwise open a new chromosome entry. -/
def addBp (chroms : List (Str × Track × Track)) (cn : Str) (e : Nat)
    (lab : Str) (h : Nat) : List (Str × Track × Track) :=
  match chroms.getLast? with
  | some c =>
    if c.1 = cn then
      chroms.dropLast ++
        [if h = 0 then (c.1, c.2.1 ++ [(e, lab)], c.2.2)
         else (c.1, c.2.1, c.2.2 ++ [(e, lab)])]
    else
      chroms ++ [if h = 0 then (cn, [(e, lab)], ([] : Track))
                 else (cn, ([] : Track), [(e, lab)])]
  | none =>
    chroms ++ [if h = 0 then (cn, [(e, lab)], ([] : Track))
               else (cn, ([] : Track), [(e, lab)])]

/-- Attach a parsed record (uncurried form used when folding). -/
def addParsed (chroms : List (Str × Track × Track))
    (b : Str × Nat × Str × Nat) : List (Str × Track × Track) :=
  addBp chroms b.1 b.2.1 b.2.2.1 b.2.2.2

/-- Walk the artifact's lines: a line that parses as a breakpoint record
extends the current sample, any other line starts a new sample section
whose identifier is the line itself. -/
def parseGo : Option (Str × List (Str × Track × Track)) → List Str →
    List (Str × SampleBP)
  | acc, [] =>
    (match acc with
     | none => []
     | some a => [(a.1, ⟨a.2⟩)])
  | acc, line :: rest =>
    match parseLine line with
    | some b =>
      (match acc with
       | none => parseGo none rest
       | some a => parseGo (some (a.1, addParsed a.2 b)) rest)
    | none =>
      (match acc with
       | none => parseGo (some (line, [])) rest
       | some a => (a.1, ⟨a.2⟩) :: parseGo (some (line, [])) rest)

/-- Modelled from the spec: re-parse a breakpoint artifact into a
`SimulatedSample` set (section 4.5, round-trip fidelity). -/
def parse_breakpoints_model (s : Str) : List (Str × SampleBP) :=
  if s = [] then [] else parseGo none (splitOnChar '\n' s)

/-- A concrete all-succeeding library environment used to evaluate the
`simgenotype` pipeline model. -/
def sgOkEnv : SimGenotypeEnv Nat Nat :=
  ⟨fun _ _ _ _ _ _ _ => .ok (), fun _ _ _ _ _ => .ok (1, 2),
   fun _ _ _ => .ok 3, fun _ _ _ _ _ => .ok ()⟩

/-- A concrete library environment whose parameter validation fails. -/
def sgFailEnv : SimGenotypeEnv Nat Nat :=
  ⟨fun _ _ _ _ _ _ _ => .error ("bad".toList), fun _ _ _ _ _ => .ok (1, 2),
   fun _ _ _ => .ok 3, fun _ _ _ _ _ => .ok ()⟩

/-- C1: with `only_breakpoint` set, the `simgenotype` pipeline never calls
`output_vcf` and makes at most one `write_breakpoints` call (exactly one
on a successful run), so the breakpoint artifact is the only output;
without the flag, a successful run calls `output_vcf` exactly once, at a
trace position after the `write_breakpoints` call. -/
theorem simgenotype_only_breakpoint_behaviour {S B : Type}
    (env : SimGenotypeEnv S B) (invcf sample_info model mapdir out : Str)
    (popsize : Nat) (seed : Option Int) (chroms : Str)
    (only_breakpoint verbose : Bool) :
    (only_breakpoint = true →
      (simgenotypeCmd env invcf sample_info model mapdir out popsize seed
          chroms only_breakpoint verbose).1.countP SgCall.isOutputVcf = 0 ∧
      (simgenotypeCmd env invcf sample_info model mapdir out popsize seed
          chroms only_breakpoint verbose).1.countP SgCall.isWriteBp ≤ 1 ∧
      ((simgenotypeCmd env invcf sample_info model mapdir out popsize seed
          chroms only_breakpoint verbose).2 = .ok () →
        (simgenotypeCmd env invcf sample_info model mapdir out popsize seed
          chroms only_breakpoint verbose).1.countP SgCall.isWriteBp = 1)) ∧
    (only_breakpoint = false →
      (simgenotypeCmd env invcf sample_info model mapdir out popsize seed
          chroms only_breakpoint verbose).2 = .ok () →
      (simgenotypeCmd env invcf sample_info model mapdir out popsize seed
          chroms only_breakpoint verbose).1.countP SgCall.isOutputVcf = 1 ∧
      ∃ i j : Nat, i < j ∧
        (∃ s b, (simgenotypeCmd env invcf sample_info model mapdir out popsize
            seed chroms only_breakpoint verbose).1[i]? =
          some (.write_breakpoints s b out)) ∧
        (∃ b2, (simgenotypeCmd env invcf sample_info model mapdir out popsize
            seed chroms only_breakpoint verbose).1[j]? =
          some (.output_vcf b2 model invcf sample_info out))) := by
  constructor
  · rintro rfl
    cases hv : env.validate_params model mapdir (splitOnChar ',' chroms)
        popsize invcf sample_info true with
    | error e =>
      simp [simgenotypeCmd, hv, SgCall.isOutputVcf, SgCall.isWriteBp]
    | ok u =>
      cases hs : env.simulate_gt model mapdir (splitOnChar ',' chroms)
          popsize seed with
      | error e =>
        simp [simgenotypeCmd, hv, hs, SgCall.isOutputVcf, SgCall.isWriteBp]
      | ok sb =>
        cases hw : env.write_breakpoints sb.1 sb.2 out with
        | error e =>
          simp [simgenotypeCmd, hv, hs, hw, SgCall.isOutputVcf, SgCall.isWriteBp]
        | ok b2 =>
          simp [simgenotypeCmd, hv, hs, hw, SgCall.isOutputVcf, SgCall.isWriteBp]
  · rintro rfl hok
    cases hv : env.validate_params model mapdir (splitOnChar ',' chroms)
        popsize invcf sample_info false with
    | error e => simp [simgenotypeCmd, hv] at hok
    | ok u =>
      cases hs : env.simulate_gt model mapdir (splitOnChar ',' chroms)
          popsize seed with
      | error e => simp [simgenotypeCmd, hv, hs] at hok
      | ok sb =>
        cases hw : env.write_breakpoints sb.1 sb.2 out with
        | error e => simp [simgenotypeCmd, hv, hs, hw] at hok
        | ok b2 =>
          cases ho : env.output_vcf b2 model invcf sample_info out with
          | error e => simp [simgenotypeCmd, hv, hs, hw, ho] at hok
          | ok u2 =>
            refine ⟨by simp [simgenotypeCmd, hv, hs, hw, ho, SgCall.isOutputVcf],
              2, 3, by norm_num, ⟨sb.1, sb.2, ?_⟩, ⟨b2, ?_⟩⟩ <;>
              simp [simgenotypeCmd, hv, hs, hw, ho]

/-- C1 witness: a concrete successful run without the flag calls
`output_vcf` exactly once, after `write_breakpoints`. -/
theorem simgenotype_only_breakpoint_behaviour_witness :
    (simgenotypeCmd sgOkEnv "i".toList "si".toList "m".toList "md".toList
        "o".toList 10 none "1,2".toList false false).1.countP
      SgCall.isOutputVcf = 1 ∧
    ∃ i j : Nat, i < j ∧
      (∃ s b, (simgenotypeCmd sgOkEnv "i".toList "si".toList "m".toList
          "md".toList "o".toList 10 none "1,2".toList false false).1[i]? =
        some (.write_breakpoints s b "o".toList)) ∧
      (∃ b2, (simgenotypeCmd sgOkEnv "i".toList "si".toList "m".toList
          "md".toList "o".toList 10 none "1,2".toList false false).1[j]? =
        some (.output_vcf b2 "m".toList "i".toList "si".toList "o".toList)) :=
  (simgenotype_only_breakpoint_behaviour sgOkEnv "i".toList "si".toList
    "m".toList "md".toList "o".toList 10 none "1,2".toList false false).2
    rfl rfl

/-- C2: the `simgenotype` pipeline's first library call is always
`validate_params`, and when validation raises, the trace is that single
call — in particular no breakpoint file is written and the simulation
never starts. -/
theorem simgenotype_validates_before_any_output {S B : Type}
    (env : SimGenotypeEnv S B) (invcf sample_info model mapdir out : Str)
    (popsize : Nat) (seed : Option Int) (chroms : Str)
    (only_breakpoint verbose : Bool) :
    ((simgenotypeCmd env invcf sample_info model mapdir out popsize seed
        chroms only_breakpoint verbose).1.head? =
      some (.validate_params model mapdir (splitOnChar ',' chroms) popsize
        invcf sample_info only_breakpoint)) ∧
    (∀ e, env.validate_params model mapdir (splitOnChar ',' chroms) popsize
        invcf sample_info only_breakpoint = .error e →
      (simgenotypeCmd env invcf sample_info model mapdir out popsize seed
          chroms only_breakpoint verbose).1 =
        [.validate_params model mapdir (splitOnChar ',' chroms) popsize invcf
          sample_info only_breakpoint] ∧
      (simgenotypeCmd env invcf sample_info model mapdir out popsize seed
          chroms only_breakpoint verbose).1.countP SgCall.isWriteBp = 0 ∧
      (simgenotypeCmd env invcf sample_info model mapdir out popsize seed
          chroms only_breakpoint verbose).1.countP SgCall.isSimulateGt = 0) := by
  constructor
  · cases only_breakpoint with
    | true =>
      cases hv : env.validate_params model mapdir (splitOnChar ',' chroms)
          popsize invcf sample_info true with
      | error e => simp [simgenotypeCmd, hv]
      | ok u =>
        cases hs : env.simulate_gt model mapdir (splitOnChar ',' chroms)
            popsize seed with
        | error e => simp [simgenotypeCmd, hv, hs]
        | ok sb =>
          cases hw : env.write_breakpoints sb.1 sb.2 out with
          | error e => simp [simgenotypeCmd, hv, hs, hw]
          | ok b2 => simp [simgenotypeCmd, hv, hs, hw]
    | false =>
      cases hv : env.validate_params model mapdir (splitOnChar ',' chroms)
          popsize invcf sample_info false with
      | error e => simp [simgenotypeCmd, hv]
      | ok u =>
        cases hs : env.simulate_gt model mapdir (splitOnChar ',' chroms)
            popsize seed with
        | error e => simp [simgenotypeCmd, hv, hs]
        | ok sb =>
          cases hw : env.write_breakpoints sb.1 sb.2 out with
          | error e => simp [simgenotypeCmd, hv, hs, hw]
          | ok b2 =>
            cases ho : env.output_vcf b2 model invcf sample_info out with
            | error e => simp [simgenotypeCmd, hv, hs, hw, ho]
            | ok u2 => simp [simgenotypeCmd, hv, hs, hw, ho]
  · intro e hv
    simp [simgenotypeCmd, hv, SgCall.isWriteBp, SgCall.isSimulateGt]

/-- C2 witness: a concrete run whose validation fails makes only the
validation call and writes nothing. -/
theorem simgenotype_validates_before_any_output_witness :
    (simgenotypeCmd sgFailEnv "i".toList "si".toList "m".toList "md".toList
        "o".toList 10 none "1,2".toList false false).1 =
      [.validate_params "m".toList "md".toList
        (splitOnChar ',' "1,2".toList) 10 "i".toList "si".toList false] ∧
    (simgenotypeCmd sgFailEnv "i".toList "si".toList "m".toList "md".toList
        "o".toList 10 none "1,2".toList false false).1.countP
      SgCall.isWriteBp = 0 ∧
    (simgenotypeCmd sgFailEnv "i".toList "si".toList "m".toList "md".toList
        "o".toList 10 none "1,2".toList false false).1.countP
      SgCall.isSimulateGt = 0 :=
  (simgenotype_validates_before_any_output sgFailEnv "i".toList "si".toList
    "m".toList "md".toList "o".toList 10 none "1,2".toList false false).2
    "bad".toList rfl

/-- C7: on a successful run without `only_breakpoint`, the pipeline's
trace is exactly validate, simulate, write, materialize — in that order —
and `output_vcf` consumes exactly the breakpoints value returned by
`write_breakpoints` together with the model, the reference variant file,
the sample-info file and the output prefix. -/
theorem simgenotype_stage_order_dataflow {S B : Type}
    (env : SimGenotypeEnv S B) (invcf sample_info model mapdir out : Str)
    (popsize : Nat) (seed : Option Int) (chroms : Str) (verbose : Bool)
    (samples : S) (bps bps2 : B)
    (hv : env.validate_params model mapdir (splitOnChar ',' chroms) popsize
      invcf sample_info false = .ok ())
    (hs : env.simulate_gt model mapdir (splitOnChar ',' chroms) popsize seed =
      .ok (samples, bps))
    (hw : env.write_breakpoints samples bps out = .ok bps2) :
    (simgenotypeCmd env invcf sample_info model mapdir out popsize seed chroms
        false verbose).1 =
      [.validate_params model mapdir (splitOnChar ',' chroms) popsize invcf
        sample_info false,
       .simulate_gt model mapdir (splitOnChar ',' chroms) popsize seed,
       .write_breakpoints samples bps out,
       .output_vcf bps2 model invcf sample_info out] := by
  cases ho : env.output_vcf bps2 model invcf sample_info out with
  | error e => simp [simgenotypeCmd, hv, hs, hw, ho]
  | ok u => simp [simgenotypeCmd, hv, hs, hw, ho]

/-- C7 witness: the four-stage trace on a concrete successful run. -/
theorem simgenotype_stage_order_dataflow_witness :
    (simgenotypeCmd sgOkEnv "i".toList "si".toList "m".toList "md".toList
        "o".toList 10 none "1,2".toList false false).1 =
      [.validate_params "m".toList "md".toList (splitOnChar ',' "1,2".toList)
        10 "i".toList "si".toList false,
       .simulate_gt "m".toList "md".toList (splitOnChar ',' "1,2".toList)
        10 none,
       .write_breakpoints 1 2 "o".toList,
       .output_vcf 3 "m".toList "i".toList "si".toList "o".toList] :=
  simgenotype_stage_order_dataflow sgOkEnv "i".toList "si".toList "m".toList
    "md".toList "o".toList 10 none "1,2".toList false 1 2 3 rfl rfl rfl

/-- C8: for both `simphenotype` and `transform`, giving `--sample` and
`--samples-file` together raises a usage error before `simulate_pt` or
`transform_haps` is invoked; with only a samples file whose text is the
newline-terminated join of `lines`, exactly those lines are passed on in
order; with neither option, `None` is passed. -/
theorem samples_option_handling (gp hp : Str) (reps : Nat)
    (her prev : Option Float) (reg : Option Str) (samples : List Str)
    (samples_file : Option Str) (cs : Option Nat) (outp : Str)
    (hids : List Str) (dm : Bool) :
    (samples ≠ [] → samples_file.isSome →
      (∃ e, simphenotypeBody gp hp reps her prev reg samples samples_file cs
          outp = .error e) ∧
      (∃ e, transformBody gp hp reg samples samples_file hids cs dm outp =
          .error e)) ∧
    (∀ content lines, samples = [] → samples_file = some content →
      lines ≠ [] → (∀ l ∈ lines, '\n' ∉ l) →
      content = joinWith '\n' lines ++ ['\n'] →
      (∀ c, simphenotypeBody gp hp reps her prev reg samples samples_file cs
          outp = .ok c → c.samples = some lines) ∧
      (∀ c, transformBody gp hp reg samples samples_file hids cs dm outp =
          .ok c → c.samples = some lines)) ∧
    (samples = [] → samples_file = none →
      (∀ c, simphenotypeBody gp hp reps her prev reg samples samples_file cs
          outp = .ok c → c.samples = none) ∧
      (∀ c, transformBody gp hp reg samples samples_file hids cs dm outp =
          .ok c → c.samples = none)) := by
  refine ⟨?_, ?_, ?_⟩
  · intro hs hf
    have herr : handleSamples samples samples_file =
        .error "You may only use one of --sample or --samples-file but not both." := by
      unfold handleSamples
      rw [if_pos ⟨hs, hf⟩]
    refine ⟨⟨"You may only use one of --sample or --samples-file but not both.", ?_⟩,
            ⟨"You may only use one of --sample or --samples-file but not both.", ?_⟩⟩ <;>
      simp [simphenotypeBody, transformBody, herr]
  · intro content lines hs hf hlne hlnl hcontent
    subst hs hf
    have hok : handleSamples [] (some content) = .ok (some (splitlines content)) := by
      unfold handleSamples
      rw [if_neg (by simp)]
    rw [hcontent, splitlines_joinWith_newline lines hlne hlnl] at hok
    rw [← hcontent] at hok
    constructor
    · intro c hc
      simp only [simphenotypeBody, hok] at hc
      cases hc
      rfl
    · intro c hc
      simp only [transformBody, hok] at hc
      cases hc
      rfl
  · intro hs hf
    subst hs hf
    have hok : handleSamples [] none = .ok none := by
      unfold handleSamples
      simp
    constructor
    · intro c hc
      simp only [simphenotypeBody, hok] at hc
      cases hc
      rfl
    · intro c hc
      simp only [transformBody, hok] at hc
      cases hc
      rfl

/-- C8 witness: a concrete two-line samples file is passed on verbatim by
both command bodies. -/
theorem samples_option_handling_witness :
    (∀ c, simphenotypeBody "g".toList "h".toList 1 none none none []
        (some "s1\ns2\n".toList) none "o".toList = .ok c →
      c.samples = some ["s1".toList, "s2".toList]) ∧
    (∀ c, transformBody "g".toList "h".toList none []
        (some "s1\ns2\n".toList) [] none false "o".toList = .ok c →
      c.samples = some ["s1".toList, "s2".toList]) :=
  (samples_option_handling "g".toList "h".toList 1 none none none []
      (some "s1\ns2\n".toList) none "o".toList [] false).2.1
    "s1\ns2\n".toList ["s1".toList, "s2".toList] rfl rfl (by simp)
    (by decide) (by decide)

/-- C9: the `simphenotype` command declares no `chunk-size` click option
(unlike `transform`), so every CLI invocation reaches `simulate_pt` with
`chunk_size = None`. -/
theorem simphenotype_chunk_size_always_none (gp hp : Str) (reps : Nat)
    (her prev : Option Float) (reg : Option Str) (samples : List Str)
    (samples_file : Option Str) (outp : Str) :
    "chunk-size" ∉ simphenotypeOptions ∧
    "chunk-size" ∈ transformOptions ∧
    (∀ c, simphenotypeCli gp hp reps her prev reg samples samples_file outp =
        .ok c → c.chunk_size = none) := by
  refine ⟨by decide, by decide, ?_⟩
  intro c hc
  unfold simphenotypeCli simphenotypeBody at hc
  cases hh : handleSamples samples samples_file with
  | error e => rw [hh] at hc; cases hc
  | ok s =>
    rw [hh] at hc
    cases hc
    rfl

/-- C9 witness: a concrete CLI invocation of `simphenotype` yields a
`simulate_pt` call with `chunk_size = None`. -/
theorem simphenotype_chunk_size_always_none_witness :
    "chunk-size" ∉ simphenotypeOptions ∧
    "chunk-size" ∈ transformOptions ∧
    ((simphenotypeCli "g".toList "h".toList 1 none none none [] none
        "o".toList).toOption.map SimulatePtCall.chunk_size = some none) := by
  refine ⟨(simphenotype_chunk_size_always_none "g".toList "h".toList 1 none
      none none [] none "o".toList).1,
    (simphenotype_chunk_size_always_none "g".toList "h".toList 1 none none
      none [] none "o".toList).2.1, ?_⟩
  have h := (simphenotype_chunk_size_always_none "g".toList "h".toList 1 none
      none none [] none "o".toList).2.2
  have hcall : simphenotypeCli "g".toList "h".toList 1 none none none [] none
      "o".toList =
      .ok { genotypes := "g".toList, haplotypes := "h".toList,
            replications := 1, heritability := none, prevalence := none,
            region := none, samples := none, chunk_size := none,
            output := "o".toList } := rfl
  rw [hcall]
  simp [Except.toOption, h _ hcall]

theorem pyDictInsert_new (d : List (Str × Str)) (k v : Str)
    (h : ∀ q ∈ d, q.1 ≠ k) : pyDictInsert d k v = d ++ [(k, v)] := by
  unfold pyDictInsert
  rw [if_neg]
  simp only [List.any_eq_true, beq_iff_eq, not_exists]
  intro q
  intro hq
  exact h q hq.1 hq.2

theorem pyDict_aux (ps : List (Str × Str)) :
    ∀ d, (d ++ ps).Pairwise (fun a b => a.1 ≠ b.1) →
      ps.foldl (fun d p => pyDictInsert d p.1 p.2) d = d ++ ps := by
  induction ps with
  | nil => intro d _; simp
  | cons p t ih =>
    intro d h
    have hnew : ∀ q ∈ d, q.1 ≠ p.1 := fun q hq =>
      (List.pairwise_append.mp h).2.2 q hq p (by simp)
    have h2 : ((d ++ [p]) ++ t).Pairwise (fun a b => a.1 ≠ b.1) := by
      rw [List.append_assoc]
      simpa using h
    rw [List.foldl_cons, pyDictInsert_new d p.1 p.2 hnew]
    calc List.foldl (fun d p => pyDictInsert d p.1 p.2) (d ++ [(p.1, p.2)]) t
        = d ++ [p] ++ t := ih (d ++ [p]) h2
      _ = d ++ p :: t := by simp

theorem pyDict_eq_self (ps : List (Str × Str))
    (h : ps.Pairwise (fun a b => a.1 ≠ b.1)) : pyDict ps = ps := by
  unfold pyDict
  simpa using pyDict_aux ps [] (by simpa using h)

/-- C10: when `--colors` has the well-formed shape
`L1:C1,...,Ln:Cn` (labels and colors free of commas and colons, labels
distinct), the `karyogram` command passes `PlotKaryogram` the dictionary
mapping each label to its color, built by splitting on commas and then
colons; when `--colors` is omitted, it passes `None`. -/
theorem karyogram_colors_parsing (bp sample out : Str)
    (title centromeres : Option Str) (pairs : List (Str × Str)) (s : Str)
    (hne : pairs ≠ [])
    (hwf : ∀ p ∈ pairs, ',' ∉ p.1 ∧ ':' ∉ p.1 ∧ ',' ∉ p.2 ∧ ':' ∉ p.2)
    (hkeys : pairs.Pairwise (fun a b => a.1 ≠ b.1))
    (hs : s = joinWith ',' (pairs.map (fun p => p.1 ++ ':' :: p.2))) :
    karyogramCmd bp sample out title centromeres (some s) =
      .ok { bp := bp, sample := sample, out := out,
            centromeres_file := centromeres, title := title,
            colors := some pairs } ∧
    karyogramCmd bp sample out title centromeres none =
      .ok { bp := bp, sample := sample, out := out,
            centromeres_file := centromeres, title := title,
            colors := none } := by
  subst hs
  refine ⟨?_, rfl⟩
  have hsplit : splitOnChar ','
      (joinWith ',' (pairs.map (fun p => p.1 ++ ':' :: p.2))) =
      pairs.map (fun p => p.1 ++ ':' :: p.2) := by
    apply splitOnChar_joinWith
    · simpa using hne
    · intro l hl
      simp only [List.mem_map] at hl
      obtain ⟨p, hp, rfl⟩ := hl
      obtain ⟨h1, _, h3, _⟩ := hwf p hp
      simp only [List.mem_append, List.mem_cons]
      rintro (hm | hm | hm)
      · exact h1 hm
      · exact absurd hm (by decide)
      · exact h3 hm
  have hitem : ∀ p ∈ pairs, splitOnChar ':' (p.1 ++ ':' :: p.2) = [p.1, p.2] := by
    intro p hp
    obtain ⟨_, h2, _, h4⟩ := hwf p hp
    have := splitOnChar_joinWith ':' [p.1, p.2] (by simp) (by
      intro l hl
      simp only [List.mem_cons, List.not_mem_nil] at hl
      rcases hl with rfl | rfl | h0
      · exact h2
      · exact h4
      · exact absurd h0 (by simp))
    simpa [joinWith] using this
  have hitems : ((splitOnChar ','
      (joinWith ',' (pairs.map (fun p => p.1 ++ ':' :: p.2)))).map
        (splitOnChar ':')) = pairs.map (fun p => [p.1, p.2]) := by
    rw [hsplit, List.map_map]
    exact List.map_congr_left (fun p hp => hitem p hp)
  have hall : ((pairs.map (fun p => [p.1, p.2])).all
      (fun p => p.length == 2)) = true := by
    rw [List.all_eq_true]
    intro x hx
    simp only [List.mem_map] at hx
    obtain ⟨p, hp, rfl⟩ := hx
    rfl
  have hextract : ((pairs.map (fun p => [p.1, p.2])).map
      (fun p => (p.headD [], p.tail.headD []))) = pairs := by
    rw [List.map_map]
    exact (List.map_congr_left (fun p _ => rfl)).trans (List.map_id _)
  simp only [karyogramCmd, hitems, hall, if_true]
  rw [hextract, pyDict_eq_self pairs hkeys]

/-- C10 witness: the documented example `--colors 'YRI:blue,CEU:green'`
is passed on as the corresponding two-entry dictionary. -/
theorem karyogram_colors_parsing_witness :
    karyogramCmd "b".toList "s".toList "o".toList none none
        (some "YRI:blue,CEU:green".toList) =
      .ok { bp := "b".toList, sample := "s".toList, out := "o".toList,
            centromeres_file := none, title := none,
            colors := some [("YRI".toList, "blue".toList),
                            ("CEU".toList, "green".toList)] } :=
  (karyogram_colors_parsing "b".toList "s".toList "o".toList none none
    [("YRI".toList, "blue".toList), ("CEU".toList, "green".toList)]
    "YRI:blue,CEU:green".toList (by decide) (by decide) (by decide)
    (by decide)).1

theorem compact_sublist : ∀ t : Track, List.Sublist (compact t) t
  | [] => by simp [compact]
  | [b] => by simp [compact]
  | a :: b :: t => by
    unfold compact
    split
    · exact (compact_sublist (b :: t)).cons a
    · exact (compact_sublist (b :: t)).cons₂ a

theorem compact_ne_nil : ∀ t : Track, t ≠ [] → compact t ≠ []
  | [], h => absurd rfl h
  | [b], _ => by simp [compact]
  | a :: b :: t, _ => by
    unfold compact
    split
    · exact compact_ne_nil (b :: t) (by simp)
    · simp

theorem compact_getLast? : ∀ t : Track, (compact t).getLast? = t.getLast?
  | [] => rfl
  | [b] => rfl
  | a :: b :: t => by
    unfold compact
    split
    · rw [compact_getLast? (b :: t), List.getLast?_cons_cons]
    · obtain ⟨x, xs, hx⟩ :=
        List.exists_cons_of_ne_nil (compact_ne_nil (b :: t) (by simp))
      rw [hx, List.getLast?_cons_cons, ← hx, compact_getLast? (b :: t),
        List.getLast?_cons_cons]

theorem compact_head_label : ∀ (b : Nat × Label) (t : Track),
    ∃ x xs, compact (b :: t) = x :: xs ∧ x.2 = b.2
  | b, [] => ⟨b, [], rfl, rfl⟩
  | b, c :: t => by
    unfold compact
    split
    · rename_i heq
      obtain ⟨x, xs, hx, hl⟩ := compact_head_label c t
      exact ⟨x, xs, hx, hl.trans heq.symm⟩
    · exact ⟨b, compact (c :: t), rfl, rfl⟩

theorem compact_chain' : ∀ t : Track,
    (compact t).Chain' (fun a b => a.2 ≠ b.2)
  | [] => by simp [compact]
  | [b] => by simp [compact]
  | a :: b :: t => by
    unfold compact
    split
    · exact compact_chain' (b :: t)
    · rename_i hne
      obtain ⟨x, xs, hx, hl⟩ := compact_head_label b t
      rw [hx, List.chain'_cons]
      refine ⟨by rw [hl]; exact hne, ?_⟩
      rw [← hx]
      exact compact_chain' (b :: t)

theorem mkTrack_chain' (f : Nat → Label) (E : Nat) :
    (mkTrack f E).Chain' (fun a b => a.2 ≠ b.2) := compact_chain' _

theorem mkTrack_pairwise (f : Nat → Label) (E : Nat) :
    ((mkTrack f E).map (fun b => b.1)).Pairwise (· < ·) := by
  have hbase : ((((List.range E).map (fun i => (i + 1, f (i + 1)))).map
      (fun b => b.1)).Pairwise (· < ·)) := by
    rw [List.map_map]
    exact (List.pairwise_lt_range E).map _ (fun a b h => by
      simpa using Nat.add_lt_add_right h 1)
  exact hbase.sublist ((compact_sublist _).map _)

theorem mkTrack_last (f : Nat → Label) (E : Nat) (h : 1 ≤ E) :
    ((mkTrack f E).getLast?).map (fun b => b.1) = some E := by
  obtain ⟨m, rfl⟩ : ∃ m, E = m + 1 := ⟨E - 1, by omega⟩
  unfold mkTrack
  rw [compact_getLast?, List.range_succ, List.map_append]
  simp only [List.map_cons, List.map_nil]
  rw [List.getLast?_concat]
  rfl

/-- Modelled from the spec: the coverage invariant for one track — end
positions strictly increase and the final one equals the chromosome's
maximum mapped position (section 8). -/
def TrackCovers (t : Track) (E : Nat) : Prop :=
  ((t.map (fun b => b.1)).Pairwise (· < ·)) ∧
  ((t.getLast?).map (fun b => b.1) = some E)

instance (t : Track) (E : Nat) : Decidable (TrackCovers t E) :=
  inferInstanceAs (Decidable
    (((t.map (fun b : Nat × Label => b.1)).Pairwise (· < ·)) ∧
     ((t.getLast?).map (fun b : Nat × Label => b.1) = some E)))

theorem mkTrack_covers (f : Nat → Label) (E : Nat) (h : 1 ≤ E) :
    TrackCovers (mkTrack f E) E := ⟨mkTrack_pairwise f E, mkTrack_last f E h⟩

/-- Both haplotypes of an individual were produced by `mkTrack` at
chromosome end `E`. -/
def IndivMk (E : Nat) (ind : Indiv) : Prop :=
  (∃ f, ind.hap0 = mkTrack f E) ∧ (∃ f, ind.hap1 = mkTrack f E)

theorem simFounder_mk (s : Nat) (props : List (Label × Nat)) (E : Nat) :
    IndivMk E (simFounder s props E).2 := by
  unfold IndivMk simFounder
  dsimp only
  exact ⟨⟨_, rfl⟩, ⟨_, rfl⟩⟩

theorem simOffspringHap_mk (s : Nat) (prev : List Indiv) (m : GMap) (E : Nat) :
    ∃ f, (simOffspringHap s prev m E).2 = mkTrack f E := by
  unfold simOffspringHap recombine
  dsimp only
  exact ⟨_, rfl⟩

theorem simOffspring_mk (s : Nat) (prev : List Indiv) (m : GMap) (E : Nat) :
    IndivMk E (simOffspring s prev m E).2 := by
  unfold IndivMk simOffspring
  exact ⟨simOffspringHap_mk s prev m E,
    simOffspringHap_mk (simOffspringHap s prev m E).1 prev m E⟩

theorem simFounders_spec : ∀ (n s : Nat) (props : List (Label × Nat)) (E : Nat),
    (simFounders n s props E).2.length = n ∧
    ∀ ind ∈ (simFounders n s props E).2, IndivMk E ind
  | 0, s, props, E => ⟨rfl, by simp [simFounders]⟩
  | n + 1, s, props, E => by
    refine ⟨?_, ?_⟩
    · simp [simFounders, (simFounders_spec n (simFounder s props E).1 props E).1]
    · intro ind hind
      simp only [simFounders, List.mem_cons] at hind
      rcases hind with rfl | hind
      · exact simFounder_mk s props E
      · exact (simFounders_spec n (simFounder s props E).1 props E).2 ind hind

theorem simGen_spec : ∀ (n s : Nat) (prev : List Indiv) (m : GMap) (E : Nat),
    (simGen n s prev m E).2.length = n ∧
    ∀ ind ∈ (simGen n s prev m E).2, IndivMk E ind
  | 0, s, prev, m, E => ⟨rfl, by simp [simGen]⟩
  | n + 1, s, prev, m, E => by
    refine ⟨?_, ?_⟩
    · simp [simGen, (simGen_spec n (simOffspring s prev m E).1 prev m E).1]
    · intro ind hind
      simp only [simGen, List.mem_cons] at hind
      rcases hind with rfl | hind
      · exact simOffspring_mk s prev m E
      · exact (simGen_spec n (simOffspring s prev m E).1 prev m E).2 ind hind

theorem simGenFold_spec (gl : List (List (Label × Nat))) :
    ∀ (acc : Nat × List Indiv) (m : GMap) (E popsize : Nat),
      acc.2.length = popsize → (∀ ind ∈ acc.2, IndivMk E ind) →
      (gl.foldl (fun acc _ => simGen popsize acc.1 acc.2 m E) acc).2.length =
        popsize ∧
      ∀ ind ∈ (gl.foldl (fun acc _ => simGen popsize acc.1 acc.2 m E) acc).2,
        IndivMk E ind := by
  induction gl with
  | nil => exact fun acc m E popsize h1 h2 => ⟨h1, h2⟩
  | cons g gl ih =>
    intro acc m E popsize h1 h2
    rw [List.foldl_cons]
    exact ih _ m E popsize (simGen_spec popsize acc.1 acc.2 m E).1
      (simGen_spec popsize acc.1 acc.2 m E).2

theorem simChrom_spec (s : Nat) (model : AdmixModel) (m : GMap) (popsize : Nat) :
    (simChrom s model m popsize).2.length = popsize ∧
    ∀ ind ∈ (simChrom s model m popsize).2, IndivMk (chromEnd m) ind := by
  unfold simChrom
  exact simGenFold_spec (model.gens.drop 1) _ m (chromEnd m) popsize
    (simFounders_spec popsize s (model.gens.headD []) (chromEnd m)).1
    (simFounders_spec popsize s (model.gens.headD []) (chromEnd m)).2

theorem simChroms_spec : ∀ (chroms : List Str) (s : Nat) (model : AdmixModel)
    (maps : List (Str × GMap)) (popsize : Nat),
    ∀ e ∈ simChroms s model maps chroms popsize,
      e.1 ∈ chroms ∧ e.2.length = popsize ∧
      ∀ ind ∈ e.2, IndivMk (chromEnd (findMap maps e.1)) ind
  | [], s, model, maps, popsize => by simp [simChroms]
  | cn :: rest, s, model, maps, popsize => by
    intro e he
    simp only [simChroms, List.mem_cons] at he
    rcases he with rfl | he
    · exact ⟨by simp, (simChrom_spec s model (findMap maps cn) popsize).1,
        (simChrom_spec s model (findMap maps cn) popsize).2⟩
    · have h := simChroms_spec rest
        (simChrom s model (findMap maps cn) popsize).1 model maps popsize e he
      exact ⟨List.mem_cons_of_mem _ h.1, h.2⟩

/-- C4: every track the simulator emits satisfies the coverage invariant —
strictly increasing end positions whose last entry is the chromosome's
maximum mapped position — for every sample, chromosome and haplotype,
provided each requested chromosome has a nonempty map and enough
individuals are simulated per generation. -/
theorem simulator_coverage_invariant (seed : Nat) (model : AdmixModel)
    (maps : List (Str × GMap)) (chroms : List Str) (popsize : Nat)
    (hn : model.num_samples ≤ popsize)
    (hE : ∀ cn ∈ chroms, 1 ≤ chromEnd (findMap maps cn)) :
    ∀ p ∈ simulate_gt_model seed model maps chroms popsize,
      ∀ c ∈ p.2.chroms,
        TrackCovers c.2.1 (chromEnd (findMap maps c.1)) ∧
        TrackCovers c.2.2 (chromEnd (findMap maps c.1)) := by
  intro p hp c hc
  simp only [simulate_gt_model, List.mem_map, List.mem_range] at hp
  obtain ⟨i, hi, rfl⟩ := hp
  simp only [List.mem_map] at hc
  obtain ⟨e, he, rfl⟩ := hc
  have hspec := simChroms_spec chroms seed model maps popsize e he
  have hlen : i < e.2.length := by rw [hspec.2.1]; omega
  have hmem : e.2.getD i (⟨[], []⟩ : Indiv) ∈ e.2 := by
    rw [List.getD_eq_getElem?_getD, List.getElem?_eq_getElem hlen]
    exact List.getElem_mem hlen
  have hmk := hspec.2.2 _ hmem
  have h1 : 1 ≤ chromEnd (findMap maps e.1) := hE e.1 hspec.1
  obtain ⟨⟨f0, hf0⟩, ⟨f1, hf1⟩⟩ := hmk
  refine ⟨?_, ?_⟩
  · show TrackCovers (e.2.getD i ⟨[], []⟩).hap0 _
    rw [hf0]
    exact mkTrack_covers f0 _ h1
  · show TrackCovers (e.2.getD i ⟨[], []⟩).hap1 _
    rw [hf1]
    exact mkTrack_covers f1 _ h1

/-- Concrete one-generation model and map used to evaluate the simulator. -/
def wModel : AdmixModel := ⟨1, [[("A".toList, 1)]]⟩

/-- Concrete single-chromosome genetic map store. -/
def wMaps : List (Str × GMap) := [("1".toList, [(5, 10)])]

/-- C4 witness: the invariant evaluated on a concrete simulated sample. -/
theorem simulator_coverage_invariant_witness :
    TrackCovers [(5, "A".toList)] (chromEnd (findMap wMaps "1".toList)) ∧
    TrackCovers [(5, "A".toList)] (chromEnd (findMap wMaps "1".toList)) :=
  simulator_coverage_invariant 0 wModel wMaps ["1".toList] 1 (by decide)
    (by decide)
    ("Sample_1".toList, ⟨[("1".toList, [(5, "A".toList)], [(5, "A".toList)])]⟩)
    (by decide)
    ("1".toList, [(5, "A".toList)], [(5, "A".toList)]) (by decide)

/-- C5: every breakpoint sequence the simulator emits is compacted — no
two consecutive breakpoints carry the same population label. -/
theorem simulator_compaction_invariant (seed : Nat) (model : AdmixModel)
    (maps : List (Str × GMap)) (chroms : List Str) (popsize : Nat)
    (hn : model.num_samples ≤ popsize) :
    ∀ p ∈ simulate_gt_model seed model maps chroms popsize,
      ∀ c ∈ p.2.chroms,
        c.2.1.Chain' (fun a b => a.2 ≠ b.2) ∧
        c.2.2.Chain' (fun a b => a.2 ≠ b.2) := by
  intro p hp c hc
  simp only [simulate_gt_model, List.mem_map, List.mem_range] at hp
  obtain ⟨i, hi, rfl⟩ := hp
  simp only [List.mem_map] at hc
  obtain ⟨e, he, rfl⟩ := hc
  have hspec := simChroms_spec chroms seed model maps popsize e he
  have hlen : i < e.2.length := by rw [hspec.2.1]; omega
  have hmem : e.2.getD i (⟨[], []⟩ : Indiv) ∈ e.2 := by
    rw [List.getD_eq_getElem?_getD, List.getElem?_eq_getElem hlen]
    exact List.getElem_mem hlen
  obtain ⟨⟨f0, hf0⟩, ⟨f1, hf1⟩⟩ := hspec.2.2 _ hmem
  constructor
  · show ((e.2.getD i ⟨[], []⟩).hap0).Chain' _
    rw [hf0]
    exact mkTrack_chain' f0 _
  · show ((e.2.getD i ⟨[], []⟩).hap1).Chain' _
    rw [hf1]
    exact mkTrack_chain' f1 _

/-- C5 witness: the compaction invariant evaluated on a concrete
simulated sample. -/
theorem simulator_compaction_invariant_witness :
    ([(5, "A".toList)] : Track).Chain' (fun a b => a.2 ≠ b.2) ∧
    ([(5, "A".toList)] : Track).Chain' (fun a b => a.2 ≠ b.2) :=
  simulator_compaction_invariant 0 wModel wMaps ["1".toList] 1 (by decide)
    ("Sample_1".toList, ⟨[("1".toList, [(5, "A".toList)], [(5, "A".toList)])]⟩)
    (by decide)
    ("1".toList, [(5, "A".toList)], [(5, "A".toList)]) (by decide)

/-- Modelled from the spec: the breakpoint-producing pipeline — simulate,
then serialize — as one function of the seed and the static inputs; the
artifact text is a pure function of them (section 4.4, reproducibility). -/
def simgenotype_artifact (seed : Nat) (model : AdmixModel)
    (maps : List (Str × GMap)) (chroms : List Str) (popsize : Nat) : Str :=
  write_breakpoints_model (simulate_gt_model seed model maps chroms popsize)

/-- C3: two runs of the simulator with identical seed, model, maps,
chromosome list and sample count produce identical `SimulatedSample`
records and byte-identical breakpoint artifacts — the modelled simulator
threads all randomness through the explicit seed, so its output is a
function of these inputs alone. -/
theorem simulator_determinism (seed : Nat) (model : AdmixModel)
    (maps : List (Str × GMap)) (chroms : List Str) (popsize : Nat)
    (r1 r2 : List (Str × SampleBP)) (a1 a2 : Str)
    (h1 : r1 = simulate_gt_model seed model maps chroms popsize)
    (h2 : r2 = simulate_gt_model seed model maps chroms popsize)
    (h3 : a1 = simgenotype_artifact seed model maps chroms popsize)
    (h4 : a2 = simgenotype_artifact seed model maps chroms popsize) :
    r1 = r2 ∧ a1 = a2 := by
  subst h1 h2 h3 h4
  exact ⟨rfl, rfl⟩

/-- C3 witness: two concrete runs with the same seed agree. -/
theorem simulator_determinism_witness :
    simulate_gt_model 0 wModel wMaps ["1".toList] 1 =
      simulate_gt_model 0 wModel wMaps ["1".toList] 1 ∧
    simgenotype_artifact 0 wModel wMaps ["1".toList] 1 =
      simgenotype_artifact 0 wModel wMaps ["1".toList] 1 :=
  simulator_determinism 0 wModel wMaps ["1".toList] 1 _ _ _ _ rfl rfl rfl rfl

theorem parseLine_of_no_tab (l : Str) (h : '\t' ∉ l) : parseLine l = none := by
  unfold parseLine
  rw [splitOnChar_of_not_mem _ _ h]

theorem parseLine_bpLine (cn : Str) (e : Nat) (lab : Label) (hapc : Char)
    (hap : Nat) (hcn : '\t' ∉ cn) (hlab : '\t' ∉ lab)
    (hhap : (hapc = '0' ∧ hap = 0) ∨ (hapc = '1' ∧ hap = 1)) :
    parseLine (bpLine cn e lab hapc) = some (cn, e, lab, hap) := by
  have hnotab : ∀ l ∈ [cn, natToChars e, lab, [hapc]], '\t' ∉ l := by
    intro l hl
    simp only [List.mem_cons, List.not_mem_nil, or_false] at hl
    rcases hl with rfl | rfl | rfl | rfl
    · exact hcn
    · exact not_digit_not_mem_natToChars e '\t' rfl
    · exact hlab
    · rcases hhap with ⟨rfl, _⟩ | ⟨rfl, _⟩ <;> decide
  unfold parseLine bpLine
  rw [splitOnChar_joinWith '\t' [cn, natToChars e, lab, [hapc]] (by simp) hnotab]
  dsimp only
  rw [charsToNat?_natToChars e]
  rcases hhap with ⟨rfl, rfl⟩ | ⟨rfl, rfl⟩ <;> rfl

/-- Well-formedness of one chromosome entry needed for round-trip:
separator-free names and labels and at least one breakpoint. -/
def WFChrom (c : Str × Track × Track) : Prop :=
  '\t' ∉ c.1 ∧ '\n' ∉ c.1 ∧ (c.2.1 ≠ [] ∨ c.2.2 ≠ []) ∧
  (∀ b ∈ c.2.1, '\t' ∉ b.2 ∧ '\n' ∉ b.2) ∧
  (∀ b ∈ c.2.2, '\t' ∉ b.2 ∧ '\n' ∉ b.2)

/-- Well-formedness of one serialized sample: a nonempty separator-free
identifier, chromosome names with no two adjacent equal, and well-formed
chromosome entries. -/
def WFSample (p : Str × SampleBP) : Prop :=
  p.1 ≠ [] ∧ '\t' ∉ p.1 ∧ '\n' ∉ p.1 ∧
  ((p.2.chroms.map (fun c => c.1)).Chain' (· ≠ ·)) ∧
  ∀ c ∈ p.2.chroms, WFChrom c

instance (c : Str × Track × Track) : Decidable (WFChrom c) :=
  inferInstanceAs (Decidable ('\t' ∉ c.1 ∧ '\n' ∉ c.1 ∧
    (c.2.1 ≠ [] ∨ c.2.2 ≠ []) ∧
    (∀ b ∈ c.2.1, '\t' ∉ b.2 ∧ '\n' ∉ b.2) ∧
    (∀ b ∈ c.2.2, '\t' ∉ b.2 ∧ '\n' ∉ b.2)))

instance (p : Str × SampleBP) : Decidable (WFSample p) :=
  inferInstanceAs (Decidable (p.1 ≠ [] ∧ '\t' ∉ p.1 ∧ '\n' ∉ p.1 ∧
    ((p.2.chroms.map (fun c : Str × Track × Track => c.1)).Chain' (· ≠ ·)) ∧
    ∀ c ∈ p.2.chroms, WFChrom c))

theorem addBp_new (chs : List (Str × Track × Track)) (cn : Str) (e : Nat)
    (lab : Str) (h : Nat)
    (hlast : ∀ lc, chs.getLast? = some lc → lc.1 ≠ cn) :
    addBp chs cn e lab h =
      chs ++ [if h = 0 then (cn, [(e, lab)], ([] : Track))
              else (cn, ([] : Track), [(e, lab)])] := by
  unfold addBp
  cases hl : chs.getLast? with
  | none => rfl
  | some c =>
    dsimp only
    rw [if_neg (hlast c hl)]

theorem foldl_addParsed_run0 : ∀ (t : Track) (q : List (Str × Track × Track))
    (cn : Str) (d0 d1 : Track),
    ((t.map (fun b => (cn, b.1, b.2, (0 : Nat)))).foldl addParsed
      (q ++ [(cn, d0, d1)])) = q ++ [(cn, d0 ++ t, d1)]
  | [], q, cn, d0, d1 => by simp
  | b :: t, q, cn, d0, d1 => by
    rw [List.map_cons, List.foldl_cons]
    have hstep : addParsed (q ++ [(cn, d0, d1)]) (cn, b.1, b.2, (0 : Nat)) =
        q ++ [(cn, d0 ++ [(b.1, b.2)], d1)] := by
      unfold addParsed addBp
      rw [List.getLast?_concat]
      simp
    rw [hstep, foldl_addParsed_run0 t q cn (d0 ++ [(b.1, b.2)]) d1,
      List.append_assoc]
    simp

theorem foldl_addParsed_run1 : ∀ (t : Track) (q : List (Str × Track × Track))
    (cn : Str) (t0 d1 : Track),
    ((t.map (fun b => (cn, b.1, b.2, (1 : Nat)))).foldl addParsed
      (q ++ [(cn, t0, d1)])) = q ++ [(cn, t0, d1 ++ t)]
  | [], q, cn, t0, d1 => by simp
  | b :: t, q, cn, t0, d1 => by
    rw [List.map_cons, List.foldl_cons]
    have hstep : addParsed (q ++ [(cn, t0, d1)]) (cn, b.1, b.2, (1 : Nat)) =
        q ++ [(cn, t0, d1 ++ [(b.1, b.2)])] := by
      unfold addParsed addBp
      rw [List.getLast?_concat]
      simp
    rw [hstep, foldl_addParsed_run1 t q cn t0 (d1 ++ [(b.1, b.2)]),
      List.append_assoc]
    simp

theorem bpLine_no_newline (cn : Str) (e : Nat) (lab : Label) (hapc : Char)
    (hcn : '\n' ∉ cn) (hlab : '\n' ∉ lab) (hh : hapc ≠ '\n') :
    '\n' ∉ bpLine cn e lab hapc := by
  unfold bpLine
  apply not_mem_joinWith '\t' '\n' _ (by decide)
  intro l hl
  simp only [List.mem_cons, List.not_mem_nil, or_false] at hl
  rcases hl with rfl | rfl | rfl | rfl
  · exact hcn
  · exact not_digit_not_mem_natToChars e '\n' rfl
  · exact hlab
  · intro hm
    simp only [List.mem_cons, List.not_mem_nil, or_false] at hm
    exact hh hm.symm

theorem parseGo_bp_lines : ∀ (lines rest : List Str) (id : Str)
    (chs : List (Str × Track × Track)),
    (∀ l ∈ lines, (parseLine l).isSome) →
    parseGo (some (id, chs)) (lines ++ rest) =
      parseGo (some (id, (lines.filterMap parseLine).foldl addParsed chs)) rest
  | [], rest, id, chs, _ => by simp
  | l :: t, rest, id, chs, hall => by
    obtain ⟨b, hb⟩ : ∃ b, parseLine l = some b :=
      Option.isSome_iff_exists.mp (hall l (by simp))
    rw [List.cons_append]
    simp only [parseGo, hb, List.filterMap_cons, List.foldl_cons]
    exact parseGo_bp_lines t rest id (addParsed chs b)
      (fun x hx => hall x (by simp [hx]))

theorem filterMap_parseLine_track (cn : Str) (t : Track) (hapc : Char)
    (hap : Nat) (hcn : '\t' ∉ cn) (hlab : ∀ b ∈ t, '\t' ∉ b.2)
    (hh : (hapc = '0' ∧ hap = 0) ∨ (hapc = '1' ∧ hap = 1)) :
    ((t.map (fun b => bpLine cn b.1 b.2 hapc)).filterMap parseLine) =
      t.map (fun b => (cn, b.1, b.2, hap)) := by
  induction t with
  | nil => rfl
  | cons b t ih =>
    rw [List.map_cons, List.map_cons, List.filterMap_cons,
      parseLine_bpLine cn b.1 b.2 hapc hap hcn (hlab b (by simp)) hh,
      ih (fun x hx => hlab x (by simp [hx]))]

theorem foldl_addParsed_chrom (c : Str × Track × Track)
    (chs : List (Str × Track × Track))
    (hlast : ∀ lc, chs.getLast? = some lc → lc.1 ≠ c.1)
    (hne : c.2.1 ≠ [] ∨ c.2.2 ≠ []) :
    ((c.2.1.map (fun b => (c.1, b.1, b.2, (0 : Nat))) ++
      c.2.2.map (fun b => (c.1, b.1, b.2, (1 : Nat)))).foldl addParsed chs) =
      chs ++ [c] := by
  obtain ⟨cn, t0, t1⟩ := c
  rw [List.foldl_append]
  cases t0 with
  | nil =>
    cases t1 with
    | nil => simp at hne
    | cons b1 t1' =>
      simp only [List.map_nil, List.foldl_nil, List.map_cons, List.foldl_cons]
      have hnew : addParsed chs (cn, b1.1, b1.2, (1 : Nat)) =
          chs ++ [(cn, ([] : Track), [(b1.1, b1.2)])] := by
        have := addBp_new chs cn b1.1 b1.2 1 hlast
        simpa using this
      rw [hnew, foldl_addParsed_run1 t1' chs cn [] [(b1.1, b1.2)]]
      simp
  | cons b0 t0' =>
    simp only [List.map_cons, List.foldl_cons]
    have hnew : addParsed chs (cn, b0.1, b0.2, (0 : Nat)) =
        chs ++ [(cn, [(b0.1, b0.2)], ([] : Track))] := by
      have := addBp_new chs cn b0.1 b0.2 0 hlast
      simpa using this
    rw [hnew, foldl_addParsed_run0 t0' chs cn [(b0.1, b0.2)] []]
    have : ([(b0.1, b0.2)] ++ t0') = b0 :: t0' := by simp
    rw [this, foldl_addParsed_run1 t1 chs cn (b0 :: t0') []]
    simp

theorem parseGo_chrom_lines : ∀ (cl : List (Str × Track × Track))
    (rest : List Str) (id : Str) (built : List (Str × Track × Track)),
    (∀ c ∈ cl, WFChrom c) →
    ((cl.map (fun c => c.1)).Chain' (· ≠ ·)) →
    (∀ lc, built.getLast? = some lc →
      ∀ hd, cl.head? = some hd → lc.1 ≠ hd.1) →
    parseGo (some (id, built)) (cl.flatMap writeChromLines ++ rest) =
      parseGo (some (id, built ++ cl)) rest
  | [], rest, id, built, _, _, _ => by simp
  | c :: cl', rest, id, built, hwf, hchain, hhd => by
    rw [List.flatMap_cons, List.append_assoc]
    obtain ⟨hcn, hcnl, hne, hl0, hl1⟩ := hwf c (by simp)
    have hparse : ∀ l ∈ writeChromLines c, (parseLine l).isSome := by
      intro l hl
      unfold writeChromLines at hl
      simp only [List.mem_append, List.mem_map] at hl
      rcases hl with ⟨b, hb, rfl⟩ | ⟨b, hb, rfl⟩
      · rw [parseLine_bpLine c.1 b.1 b.2 '0' 0 hcn (hl0 b hb).1
          (Or.inl ⟨rfl, rfl⟩)]
        rfl
      · rw [parseLine_bpLine c.1 b.1 b.2 '1' 1 hcn (hl1 b hb).1
          (Or.inr ⟨rfl, rfl⟩)]
        rfl
    rw [parseGo_bp_lines (writeChromLines c) _ id built hparse]
    have hfm : (writeChromLines c).filterMap parseLine =
        c.2.1.map (fun b => (c.1, b.1, b.2, (0 : Nat))) ++
          c.2.2.map (fun b => (c.1, b.1, b.2, (1 : Nat))) := by
      unfold writeChromLines
      rw [List.filterMap_append,
        filterMap_parseLine_track c.1 c.2.1 '0' 0 hcn
          (fun b hb => (hl0 b hb).1) (Or.inl ⟨rfl, rfl⟩),
        filterMap_parseLine_track c.1 c.2.2 '1' 1 hcn
          (fun b hb => (hl1 b hb).1) (Or.inr ⟨rfl, rfl⟩)]
    rw [hfm, foldl_addParsed_chrom c built
      (fun lc hlc => hhd lc hlc c rfl) hne]
    have hchain2 : ((cl'.map (fun x => x.1)).Chain' (· ≠ ·)) := by
      rw [List.map_cons] at hchain
      exact hchain.tail
    have hhd2 : ∀ lc, (built ++ [c]).getLast? = some lc →
        ∀ hd, cl'.head? = some hd → lc.1 ≠ hd.1 := by
      intro lc hlc hd hhd2
      rw [List.getLast?_concat] at hlc
      cases hlc
      rw [List.map_cons] at hchain
      have := (List.chain'_cons'.mp hchain).1 hd.1 (by
        rw [List.head?_map, hhd2]
        rfl)
      exact this
    rw [parseGo_chrom_lines cl' rest id (built ++ [c])
      (fun x hx => hwf x (by simp [hx])) hchain2 hhd2, List.append_assoc]
    rfl

theorem parseGo_samples : ∀ (samples : List (Str × SampleBP))
    (a : Str × List (Str × Track × Track)),
    (∀ p ∈ samples, WFSample p) →
    parseGo (some a) (samples.flatMap writeSampleLines) =
      (a.1, ⟨a.2⟩) :: samples
  | [], a, _ => rfl
  | p :: rest, a, hwf => by
    obtain ⟨hid, hidt, hidn, hchain, hcwf⟩ := hwf p (by simp)
    rw [List.flatMap_cons,
      show writeSampleLines p = p.1 :: p.2.chroms.flatMap writeChromLines
        from rfl,
      List.cons_append]
    simp only [parseGo, parseLine_of_no_tab p.1 hidt]
    rw [parseGo_chrom_lines p.2.chroms _ p.1 [] hcwf hchain
      (by intro lc h _ _; simp at h), List.nil_append]
    rw [parseGo_samples rest (p.1, p.2.chroms)
      (fun x hx => hwf x (by simp [hx]))]

/-- C6: parsing the artifact written by the Breakpoint Writer recovers
exactly the serialized `SimulatedSample` set — identifiers, chromosome
order and every haplotype's breakpoint sequence — for any nonempty,
well-formed sample set. -/
theorem write_parse_roundtrip (samples : List (Str × SampleBP))
    (hne : samples ≠ []) (hwf : ∀ p ∈ samples, WFSample p) :
    parse_breakpoints_model (write_breakpoints_model samples) = samples := by
  obtain ⟨p, rest, rfl⟩ := List.exists_cons_of_ne_nil hne
  obtain ⟨hid, hidt, hidn, hchain, hcwf⟩ := hwf p (by simp)
  have hlines : ∀ l ∈ (p :: rest).flatMap writeSampleLines, '\n' ∉ l := by
    intro l hl
    simp only [List.mem_flatMap] at hl
    obtain ⟨q, hq, hlq⟩ := hl
    obtain ⟨hqid, hqidt, hqidn, _, hqc⟩ := hwf q hq
    unfold writeSampleLines at hlq
    simp only [List.mem_cons, List.mem_flatMap] at hlq
    rcases hlq with rfl | ⟨c, hc, hlc⟩
    · exact hqidn
    · obtain ⟨hcn, hcnl, _, h0, h1⟩ := hqc c hc
      unfold writeChromLines at hlc
      simp only [List.mem_append, List.mem_map] at hlc
      rcases hlc with ⟨b, hb, rfl⟩ | ⟨b, hb, rfl⟩
      · exact bpLine_no_newline c.1 b.1 b.2 '0' hcnl (h0 b hb).2 (by decide)
      · exact bpLine_no_newline c.1 b.1 b.2 '1' hcnl (h1 b hb).2 (by decide)
  have hfl : (p :: rest).flatMap writeSampleLines =
      p.1 :: (p.2.chroms.flatMap writeChromLines ++
        rest.flatMap writeSampleLines) := by
    rw [List.flatMap_cons]
    rfl
  have hart : write_breakpoints_model (p :: rest) ≠ [] := by
    unfold write_breakpoints_model
    rw [hfl]
    exact joinWith_ne_nil_of_head_ne_nil '\n' p.1 _ hid
  have hsplit : splitOnChar '\n' (write_breakpoints_model (p :: rest)) =
      (p :: rest).flatMap writeSampleLines := by
    unfold write_breakpoints_model
    exact splitOnChar_joinWith '\n' _ (by rw [hfl]; simp) hlines
  unfold parse_breakpoints_model
  rw [if_neg hart, hsplit, hfl]
  simp only [parseGo, parseLine_of_no_tab p.1 hidt]
  rw [parseGo_chrom_lines p.2.chroms _ p.1 [] hcwf hchain
    (by intro lc h _ _; simp at h), List.nil_append]
  rw [parseGo_samples rest (p.1, p.2.chroms)
    (fun x hx => hwf x (by simp [hx]))]

/-- Concrete sample set used to evaluate the writer and parser. -/
def wSamples : List (Str × SampleBP) :=
  [("S1".toList,
    ⟨[("1".toList, [(5, "A".toList)], [(3, "B".toList), (5, "A".toList)])]⟩)]

/-- C6 witness: write-then-parse on a concrete sample set is the
identity. -/
theorem write_parse_roundtrip_witness :
    parse_breakpoints_model (write_breakpoints_model wSamples) = wSamples :=
  write_parse_roundtrip wSamples (by decide) (by
    intro p hp
    simp only [wSamples, List.mem_singleton] at hp
    subst hp
    exact ⟨by decide, by decide, by decide, by simp, by decide⟩)

end Haptools
